import Mathlib

/-!
Verification development for the FAIR_eva harmonization-and-validation core.

Shallow embedding of:
- `ConfigTerms.__call__.wrapper` (src/api/evaluator.py): term-map resolution,
  metadata-row matching, homogenization (gather), optional validation, kwargs
  merging and score computation;
- `MetadataValuesBase.gather` and `MetadataValuesBase._validate_any_vocabulary`
  (src/api/evaluator.py);
- `EvaluatorBase.eval_persistency` / `eval_uniqueness` and the `rda_f1_*`
  indicator shape (src/api/evaluator.py);
- the redirect-following vocabulary connectors `RoR.collect`, `Coar.collect`,
  `LibraryOfCongress.collect` (src/api/vocabulary.py), which are textually
  identical and are embedded once.

Python exceptions are modelled with `Except String`; Python dicts (insertion
ordered, overwrite-in-place) with association lists and `dictUpdate`; external
calls (HTTP requests, plugin-overridable predicates such as
`ut.is_persistent_id`) are parameters of the definitions.  Scores are exact
rationals `ℚ`.
-/

/-- A row of the metadata table: `(schema, element, qualifier, text_value)`.
The `schema` column is never consulted by the harmonizer, so it is omitted. -/
structure MetaRow where
  element : String
  qualifier : Option String
  text_value : String
deriving DecidableEq, Repr

/-- A concrete field reference inside a `terms_map` entry: either a scalar
element name (Python `str`, matched on element only in the harmonization
loop) or an `[element, qualifier]` pair (Python `list`, matched on both). -/
inductive FieldSpec where
  | scalar (element : String)
  | pair (element : String) (qualifier : Option String)
deriving DecidableEq, Repr

/-- Element name of a field reference (used in exception messages). -/
def FieldSpec.elementName : FieldSpec → String
  | .scalar e => e
  | .pair e _ => e

/-- Normalization of a field reference to an `(element, qualifier)` row of the
`term_metadata` DataFrame, as built by the first phase of the wrapper
(src/api/evaluator.py lines 84-118): a scalar element gets qualifier `None`. -/
def FieldSpec.toRowSpec : FieldSpec → String × Option String
  | .scalar e => (e, none)
  | .pair e q => (e, q)

/-- Python dict assignment `d[k] = v` on an insertion-ordered association
list: overwrite in place if the key exists, else append at the end. -/
def dictUpdate {α : Type} (kw : List (String × α)) (k : String) (v : α) :
    List (String × α) :=
  match kw with
  | [] => [(k, v)]
  | (k1, v1) :: rest =>
      if k1 = k then (k, v) :: rest else (k1, v1) :: dictUpdate rest k v

/-- Python dict lookup `d.get(k)` on an association list. -/
def dictGet {α : Type} (kw : List (String × α)) (k : String) : Option α :=
  match kw with
  | [] => none
  | (k1, v1) :: rest => if k1 = k then some v1 else dictGet rest k

/-- Modelled from the spec: `ut.check_metadata_terms_with_values` lives in
`api/utils.py`, which is not under src/.  Section 4.1 of the spec describes it:
select the metadata rows whose `element` matches a requested field and whose
`qualifier` matches exactly, or the field qualifier is `None`/empty and the
row qualifier is also empty. -/
def check_metadata_terms_with_values (metadata : List MetaRow)
    (fields : List (String × Option String)) : List MetaRow :=
  metadata.filter (fun r =>
    fields.any (fun f =>
      r.element = f.1 &&
        (r.qualifier = f.2 ||
          ((f.2 = none || f.2 = some "") &&
            (r.qualifier = none || r.qualifier = some "")))))

/-- Phase 1 of the wrapper (src/api/evaluator.py lines 84-118): for each
requested term present in `terms_map`, emit one `(element, qualifier)` row per
concrete field, in term-list order. -/
def buildTermMetadata (terms_map : List (String × List FieldSpec))
    (term_list : List String) : List (String × Option String) :=
  term_list.flatMap (fun term =>
    match dictGet terms_map term with
    | some fields => fields.map FieldSpec.toRowSpec
    | none => [])

/-- Row selection of the harmonization loop (src/api/evaluator.py lines
164-172): a scalar field selects on `element` only; an `[element, qualifier]`
pair selects on both columns. -/
def matchField (tm : List MetaRow) : FieldSpec → List String
  | .scalar e => (tm.filter (fun r => r.element = e)).map MetaRow.text_value
  | .pair e q =>
      (tm.filter (fun r => r.element = e && r.qualifier = q)).map
        MetaRow.text_value

/-- Result of the wrapper: either the early `(0, msg)` return when the
metadata-availability checks fail, or the kwargs passed to the wrapped
indicator together with the injected `points`. -/
inductive Outcome (α : Type) where
  | noMetadata (msg : String)
  | payload (kwargs : List (String × α)) (points : ℚ)
deriving DecidableEq

/-- Number of kwargs keys whose value is truthy (src/api/evaluator.py line
302); for `validate=False` a value is a Python list, truthy iff non-empty. -/
def keysWithValues (kw : List (String × List String)) : Nat :=
  (kw.filter (fun kv => !kv.2.isEmpty)).length

/-- Final score computation of the wrapper (src/api/evaluator.py lines
300-306): exactly 100 when every key is truthy, else the truthy ratio. -/
def computePoints (kw : List (String × List String)) : ℚ :=
  if keysWithValues kw = kw.length then 100
  else ((keysWithValues kw : ℚ) / (kw.length : ℚ)) * 100

/-- The merge block of the `validate=False` branch (src/api/evaluator.py
lines 277-288): when the canonical term was already collected, the new value
list is extended with the previous one (new values first). -/
def mergePrev (kw : List (String × List String)) (key : String)
    (tvl : List String) : List String :=
  match dictGet kw key with
  | some prev => tvl ++ prev
  | none => tvl

/-- One pass of the harmonization loop body for `validate=False`
(src/api/evaluator.py lines 154-293, validation branch excluded): select the
rows of one concrete field, homogenize through `gather` (raising when the
result is empty on non-empty input), concatenate with a previously collected
list for the same canonical term, and assign into kwargs. -/
def stepNoValidate (gather : List String → String → List String)
    (tm : List MetaRow) (key : String) (kw : List (String × List String))
    (f : FieldSpec) : Except String (List (String × List String)) :=
  if (matchField tm f).isEmpty then
    .ok (dictUpdate kw key (mergePrev kw key []))
  else if (gather (matchField tm f) key).isEmpty then
    .error ("No values for metadata element " ++ f.elementName ++
      " resulted from the homogenization process")
  else
    .ok (dictUpdate kw key (mergePrev kw key (gather (matchField tm f) key)))

/-- Inner loop over the concrete fields of one `terms_map` entry
(`for term_key_plugin in value`), `validate=False`. -/
def foldFields (gather : List String → String → List String)
    (tm : List MetaRow) (key : String) :
    List FieldSpec → List (String × List String) →
      Except String (List (String × List String))
  | [], kw => .ok kw
  | f :: rest, kw =>
      match stepNoValidate gather tm key kw f with
      | .error e => .error e
      | .ok kw1 => foldFields gather tm key rest kw1

/-- Outer loop over `plugin.terms_map.items()` (src/api/evaluator.py line
149), processing the entries whose key belongs to the requested term list,
`validate=False`. -/
def foldTermsMap (gather : List String → String → List String)
    (tm : List MetaRow) (term_list : List String) :
    List (String × List FieldSpec) → List (String × List String) →
      Except String (List (String × List String))
  | [], kw => .ok kw
  | (key, fields) :: rest, kw =>
      if key ∈ term_list then
        match foldFields gather tm key fields kw with
        | .error e => .error e
        | .ok kw1 => foldTermsMap gather tm term_list rest kw1
      else foldTermsMap gather tm term_list rest kw

/-- The plugin state consumed by the wrapper: the metadata table and the
`terms_map` configuration attribute (a Python dict, insertion ordered). -/
structure Plugin where
  metadata : List MetaRow
  terms_map : List (String × List FieldSpec)

/-- The early-return message for a term id with no resolved field
(src/api/evaluator.py lines 122-125); the apostrophes around the term id are
dropped. -/
def msgNotDefined (term_id : String) : String :=
  "Metadata values are not defined in configuration for the term " ++ term_id

/-- The early-return message when no metadata row matches any resolved field
(src/api/evaluator.py lines 132-135); the rendering of the Python list is
simplified to a comma-separated join. -/
def msgNoAccessInfo (term_list : List String) (term_id : String) : String :=
  "No access information can be found in the metadata for: " ++
    String.intercalate ", " term_list ++
    ". Please double-check the value/s provided for " ++ term_id ++
    " configuration parameter"

/-- The `ConfigTerms.__call__.wrapper` decorator body for `validate=False`
(src/api/evaluator.py lines 71-308), with the initial kwargs empty, as in the
API's indicator invocation `plugin.rda_xx()`.  `gather` stands for the
plugin-overridable `plugin.metadata_utils.gather`. -/
def configTermsWrapper (p : Plugin)
    (gather : List String → String → List String) (term_id : String)
    (term_list : List String) : Except String (Outcome (List String)) :=
  if (buildTermMetadata p.terms_map term_list).isEmpty then
    .ok (.noMetadata (msgNotDefined term_id))
  else if (check_metadata_terms_with_values p.metadata
      (buildTermMetadata p.terms_map term_list)).isEmpty then
    .ok (.noMetadata (msgNoAccessInfo term_list term_id))
  else
    match foldTermsMap gather
        (check_metadata_terms_with_values p.metadata
          (buildTermMetadata p.terms_map term_list))
        term_list p.terms_map [] with
    | .error e => .error e
    | .ok kw => .ok (.payload kw (computePoints kw))

/-- Validation results as returned by the `_validate_*` methods:
vocabulary id to the pair of `valid` and `non_valid` value lists. -/
def ValDict : Type := List (String × (List String × List String))

instance : DecidableEq ValDict := by
  unfold ValDict
  infer_instance

/-- The per-pass payload stored into kwargs by the wrapper when
`validate=True` (src/api/evaluator.py lines 247-250): a Python dict with
exactly the keys `values` and `validation`. -/
structure Payload where
  values : List String
  validation : ValDict
deriving DecidableEq

/-- The merge block of the `validate=True` branch (src/api/evaluator.py
lines 255-266): the previous payload is looked up under the stale loop
variable `term` (the last element of the requested term list), not under the
current canonical term, and the Python merge
`_metadata_payload.update(_previous_payload)` lets the previous payload
overwrite the keys of the new one; both dicts carry exactly the keys
`values` and `validation`, so the merged payload is the previous payload
unchanged. -/
def mergePayloadPrev (kw : List (String × Payload)) (termStale : String)
    (newP : Payload) : Payload :=
  match dictGet kw termStale with
  | some prev => prev
  | none => newP

/-- One pass of the harmonization loop body for `validate=True`
(src/api/evaluator.py lines 154-272).  `validateFn` stands for
`plugin.metadata_utils.validate`, which the wrapper calls with NO
surrounding `try`/`except` (lines 220-226) and with the stale loop
variable `term` as the element name; `validateFn` is fallible
(`MetadataValuesBase.validate` raises, e.g., at lines 412-415 when the
`controlled_vocabularies` configuration is missing), and its exception
propagates out of the wrapper.  When the selected row values are empty the
source skips the validate call (`if term_values_list:` at line 215) and
stores an empty validation dict.  Merging goes through
`mergePayloadPrev`. -/
def stepValidate (gather : List String → String → List String)
    (validateFn : List String → String → Except String ValDict)
    (tm : List MetaRow) (termStale key : String)
    (kw : List (String × Payload)) (f : FieldSpec) :
    Except String (List (String × Payload)) :=
  if (matchField tm f).isEmpty then
    .ok (dictUpdate kw key (mergePayloadPrev kw termStale ⟨[], []⟩))
  else if (gather (matchField tm f) key).isEmpty then
    .error ("No values for metadata element " ++ f.elementName ++
      " resulted from the homogenization process")
  else
    match validateFn (gather (matchField tm f) key) termStale with
    | .error e => .error e
    | .ok validated =>
        .ok (dictUpdate kw key (mergePayloadPrev kw termStale
          ⟨gather (matchField tm f) key, validated⟩))

/-- Inner loop over the concrete fields of one `terms_map` entry,
`validate=True`. -/
def foldFieldsV (gather : List String → String → List String)
    (validateFn : List String → String → Except String ValDict) (tm : List MetaRow)
    (termStale key : String) :
    List FieldSpec → List (String × Payload) →
      Except String (List (String × Payload))
  | [], kw => .ok kw
  | f :: rest, kw =>
      match stepValidate gather validateFn tm termStale key kw f with
      | .error e => .error e
      | .ok kw1 => foldFieldsV gather validateFn tm termStale key rest kw1

/-- Outer loop over `plugin.terms_map.items()`, `validate=True`. -/
def foldTermsMapV (gather : List String → String → List String)
    (validateFn : List String → String → Except String ValDict) (tm : List MetaRow)
    (termStale : String) (term_list : List String) :
    List (String × List FieldSpec) → List (String × Payload) →
      Except String (List (String × Payload))
  | [], kw => .ok kw
  | (key, fields) :: rest, kw =>
      if key ∈ term_list then
        match foldFieldsV gather validateFn tm termStale key fields kw with
        | .error e => .error e
        | .ok kw1 => foldTermsMapV gather validateFn tm termStale term_list rest kw1
      else foldTermsMapV gather validateFn tm termStale term_list rest kw

/-- Truthy-key count for `validate=True` kwargs (src/api/evaluator.py line
302): every value is a Python dict holding the two keys `values` and
`validation`, and a non-empty dict is always truthy, so every key counts. -/
def keysWithValuesV (kw : List (String × Payload)) : Nat :=
  (kw.filter (fun _kv => true)).length

/-- Final score computation of the wrapper for `validate=True` kwargs. -/
def computePointsV (kw : List (String × Payload)) : ℚ :=
  if keysWithValuesV kw = kw.length then 100
  else ((keysWithValuesV kw : ℚ) / (kw.length : ℚ)) * 100

/-- The `ConfigTerms.__call__.wrapper` decorator body for `validate=True`
(src/api/evaluator.py lines 71-308), initial kwargs empty.  The stale loop
variable `term` left over from the first phase equals the last element of the
requested term list. -/
def configTermsWrapperV (p : Plugin)
    (gather : List String → String → List String)
    (validateFn : List String → String → Except String ValDict) (term_id : String)
    (term_list : List String) : Except String (Outcome Payload) :=
  if (buildTermMetadata p.terms_map term_list).isEmpty then
    .ok (.noMetadata (msgNotDefined term_id))
  else if (check_metadata_terms_with_values p.metadata
      (buildTermMetadata p.terms_map term_list)).isEmpty then
    .ok (.noMetadata (msgNoAccessInfo term_list term_id))
  else
    match foldTermsMapV gather validateFn
        (check_metadata_terms_with_values p.metadata
          (buildTermMetadata p.terms_map term_list))
        ((term_list.getLast?).getD "") term_list p.terms_map [] with
    | .error e => .error e
    | .ok kw => .ok (.payload kw (computePointsV kw))

/-- Per-value membership loop of `_validate_any_vocabulary`
(src/api/evaluator.py lines 600-610).  `collect vid v` models
`vocab_instance.collect(value)`: `some b` is a returned boolean, `none` a
raised exception, which the loop catches and logs, appending the value to
neither list. -/
def vocabInner (collect : String → String → Option Bool) (vid : String)
    (values : List String) : List String × List String :=
  values.foldl (fun acc v =>
    match collect vid v with
    | some true => (acc.1 ++ [v], acc.2)
    | some false => (acc.1, acc.2 ++ [v])
    | none => acc) ([], [])

/-- `MetadataValuesBase._validate_any_vocabulary` (src/api/evaluator.py lines
586-617).  `hasClass vid` models `hasattr(voc, vocabulary_id)`; vocabulary ids
without a connector class are skipped with a warning.  `vocabs` is the key
list of `matching_vocabularies`. -/
def validate_any_vocabulary (hasClass : String → Bool)
    (collect : String → String → Option Bool) (vocabs : List String)
    (values : List String) : List (String × (List String × List String)) :=
  vocabs.foldl (fun acc vid =>
    if hasClass vid then dictUpdate acc vid (vocabInner collect vid values)
    else acc) []

/-- `MetadataValuesBase.validate` (src/api/evaluator.py lines 398-488).
`cv_config` is the parsed `Generic:controlled_vocabularies` setting
(category name to the key list of its vocabulary dict; the endpoint values
are never read by the branches modelled here); `none` stands for a missing
or empty setting — falsy in Python — on which the method RAISES
`Exception` (lines 412-415; the apostrophes of the source message are
dropped).  The `Format` and `License` branches call the plugin-overridable
`_validate_format`/`_validate_license` (the base-class bodies, invoked with
the argument lists of lines 435-448, raise `TypeError`), so they are
fallible parameters; `orcid_basic_info` and `validate_any_pid` stand for
the `ut.*` helpers of api/utils.py, which is not under src/.  The
`Person Identifier` branch (lines 462-470) and the `Data connection`
branch (`_validate_data_connection`, lines 619-628) partition the values
inline; every remaining category goes through
`_validate_any_vocabulary`. -/
def MetadataValuesBase_validate
    (cv_config : Option (List (String × List String)))
    (validate_format validate_license :
      List String → List String → Except String ValDict)
    (orcid_basic_info validate_any_pid : String → Bool)
    (hasClass : String → Bool) (collect : String → String → Option Bool)
    (element_values : List String) (element : String) :
    Except String ValDict :=
  match cv_config with
  | none =>
      .error ("Controlled vocabularies not defined in configuration: " ++
        "please check Generic:controlled_vocabularies")
  | some cvs =>
      if element = "Format" then
        validate_format element_values ((dictGet cvs element).getD [])
      else if element = "License" then
        validate_license element_values ((dictGet cvs element).getD [])
      else if element = "Keywords" ∨
          element = "Metadata for Resource Discovery" ∨
          element = "Metadata connection" then
        .ok (validate_any_vocabulary hasClass collect
          ((dictGet cvs element).getD []) element_values)
      else if element = "Person Identifier" then
        .ok (((dictGet cvs element).getD []).foldl (fun acc vid =>
          dictUpdate acc vid (element_values.foldl (fun vn v =>
            if orcid_basic_info v then (vn.1 ++ [v], vn.2)
            else (vn.1, vn.2 ++ [v])) ([], []))) [])
      else if element = "Data connection" then
        .ok [("Data Connection", element_values.foldl (fun vn v =>
          if validate_any_pid v then (vn.1 ++ [v], vn.2)
          else (vn.1, vn.2 ++ [v])) ([], []))]
      else
        .ok (validate_any_vocabulary hasClass collect
          ((dictGet cvs element).getD []) element_values)

/-- Result of one dispatched `cls._get_*` call inside
`MetadataValuesBase.gather`: a returned value (`val (some s)` a proper value,
`val none` the Python `None`) or a raised exception. -/
inductive GatherStep where
  | val (v : Option String)
  | exn

/-- The seven categories whose dispatch appends the handler result only when
it is not `None` (src/api/evaluator.py lines 336-363). -/
def recognizedConditional : List String :=
  ["Metadata Identifier", "Data Identifier", "Temporal Coverage",
   "Spatial Coverage", "Person Identifier", "Keywords", "Format"]

/-- The four categories whose dispatch appends the handler result
unconditionally, `None` included (src/api/evaluator.py lines 364-375). -/
def recognizedUnconditional : List String :=
  ["Metadata for Resource Discovery", "Metadata for accesibility",
   "Metadata connection", "Data connection"]

/-- The dispatch loop of `MetadataValuesBase.gather` (src/api/evaluator.py
lines 334-379): per input value, dispatch on the category name; an
unrecognized category raises `NotImplementedError`, and a handler may raise.
`.error` is the exception leaving the `try` block. -/
def gatherDispatchLoop (handler : String → String → GatherStep)
    (element : String) :
    List String → List (Option String) → Except Unit (List (Option String))
  | [], acc => .ok acc
  | v :: rest, acc =>
      if element ∈ recognizedConditional then
        match handler element v with
        | .val (some t) => gatherDispatchLoop handler element rest (acc ++ [some t])
        | .val none => gatherDispatchLoop handler element rest acc
        | .exn => .error ()
      else if element ∈ recognizedUnconditional then
        match handler element v with
        | .val t => gatherDispatchLoop handler element rest (acc ++ [t])
        | .exn => .error ()
      else .error ()

/-- `MetadataValuesBase.gather` (src/api/evaluator.py lines 327-396).  Input
values coming from the metadata table are strings, so in the `except` block
the `isinstance(element_values, str)` test always succeeds and the loop
`for element_values in element_values_list: _values = [element_values]`
leaves `_values` as the singleton of the last input value; the trailing
`finally: return _values` means no exception ever propagates. -/
def gather (handler : String → String → GatherStep)
    (element_values_list : List String) (element : String) :
    List (Option String) :=
  match gatherDispatchLoop handler element element_values_list [] with
  | .ok vs => vs
  | .error _ =>
      match element_values_list.getLast? with
      | some l => [some l]
      | none => []

/-- One entry of the per-identifier message list built by `eval_persistency`
and `eval_uniqueness`. -/
structure MsgEntry where
  message : String
  points : Nat
deriving DecidableEq, Repr

/-- Python `round(100 / len(id_list))` (src/api/evaluator.py line 751) as
exact rational rounding of `100 / n` to the nearest integer, ties to even;
the halfway cases `n = 8, 40, 200` give floats `12.5, 2.5, 0.5` that are
exactly representable, so the float round agrees with the rational one. -/
def pyRound100Div (n : Nat) : Nat :=
  let q := 100 / n
  let r := 100 % n
  if 2 * r < n then q
  else if 2 * r > n then q + 1
  else if q % 2 = 0 then q else q + 1

example : pyRound100Div 3 = 33 := by rfl
example : pyRound100Div 8 = 12 := by rfl
example : pyRound100Div 40 = 2 := by rfl

/-- `EvaluatorBase.eval_persistency` (src/api/evaluator.py lines 748-769).
`is_persistent_id` stands for `ut.is_persistent_id` (api/utils.py, external
to the harmonization core).  An empty identifier list makes
`round(100 / len(id_list))` raise `ZeroDivisionError`. -/
def eval_persistency (is_persistent_id : String → Bool)
    (id_list : List String) (data_or_metadata : String) :
    Except String (Nat × List MsgEntry) :=
  if id_list.isEmpty then .error "ZeroDivisionError: division by zero"
  else
    let points_per_id := pyRound100Div id_list.length
    let r := id_list.foldl (fun (acc : Nat × List MsgEntry) i =>
      if is_persistent_id i then
        (100, acc.2 ++ [⟨"Found persistent identifier for the " ++
          data_or_metadata ++ ": " ++ i, points_per_id⟩])
      else
        (acc.1, acc.2 ++ [⟨"Identifier is not persistent for the " ++
          data_or_metadata ++ ": " ++ i, 0⟩])) (0, [])
    .ok r

/-- `EvaluatorBase.eval_uniqueness` (src/api/evaluator.py lines 776-797),
identical in structure to `eval_persistency` with `ut.is_unique_id` and its
own messages. -/
def eval_uniqueness (is_unique_id : String → Bool) (id_list : List String)
    (data_or_metadata : String) : Except String (Nat × List MsgEntry) :=
  if id_list.isEmpty then .error "ZeroDivisionError: division by zero"
  else
    let points_per_id := pyRound100Div id_list.length
    let r := id_list.foldl (fun (acc : Nat × List MsgEntry) i =>
      if is_unique_id i then
        (100, acc.2 ++ [⟨"Found a globally unique identifier for the " ++
          data_or_metadata ++ ": " ++ i, points_per_id⟩])
      else
        (acc.1, acc.2 ++ [⟨"Identifier found for the " ++ data_or_metadata ++
          " is not globally unique: " ++ i, 0⟩])) (0, [])
    .ok r

/-- The message part of an indicator result: either one string (the early
wrapper return) or the per-identifier entry list. -/
inductive Message where
  | text (s : String)
  | entries (l : List MsgEntry)
deriving DecidableEq

/-- `EvaluatorBase.rda_f1_01d` (src/api/evaluator.py lines 912-941) composed
with its `ConfigTerms(term_id="identifier_term_data")` decorator: the wrapper
runs first; on its early return the indicator body is never called; otherwise
the body reads `kwargs["Data Identifier"]` (a `KeyError` if absent) and calls
`eval_persistency`. -/
def rda_f1_01d (p : Plugin) (gather : List String → String → List String)
    (is_persistent_id : String → Bool) (term_list : List String) :
    Except String (ℚ × Message) :=
  match configTermsWrapper p gather "identifier_term_data" term_list with
  | .error e => .error e
  | .ok (.noMetadata msg) => .ok (0, .text msg)
  | .ok (.payload kw _pts) =>
      match dictGet kw "Data Identifier" with
      | none => .error "KeyError: Data Identifier"
      | some ids =>
          match eval_persistency is_persistent_id ids "data" with
          | .error e => .error e
          | .ok (pts, msgs) => .ok ((pts : ℚ), .entries msgs)

/-- Helper for the substring test: does `needle` occur contiguously in the
character list? -/
def containsAux (needle : List Char) : List Char → Bool
  | [] => needle.isEmpty
  | c :: rest => needle.isPrefixOf (c :: rest) || containsAux needle rest

/-- Python substring test `needle in haystack`. -/
def strContains (haystack needle : String) : Bool :=
  containsAux needle.toList haystack.toList

/-- A redirect status in the sense of the connector loop condition
`status_code > 300 and status_code < 400` (src/api/vocabulary.py line 454). -/
def isRedirectStatus (st : Nat) : Bool :=
  300 < st && st < 400

/-- The `while` loop shared by `RoR.collect`, `Coar.collect` and
`LibraryOfCongress.collect` (src/api/vocabulary.py lines 281-285, 453-457,
477-481): `resp i` is the response of the i-th `requests.head` call (status
code and `Location` header); the loop keeps following while the status is
strictly between 300 and 400.  `fuel` bounds the number of iterations the
model is allowed to observe; `none` means the loop has not terminated within
that bound.  The loop enters at least once because `status_code` starts at
350. -/
def redirectLoop (resp : Nat → Nat × Option String) : Nat → Nat → Option Nat
  | _, 0 => none
  | i, fuel + 1 =>
      let st := (resp i).1
      if isRedirectStatus st then redirectLoop resp (i + 1) fuel
      else some st

/-- The body of `RoR.collect` (src/api/vocabulary.py lines 273-290),
textually identical to `Coar.collect` (lines 445-462) and
`LibraryOfCongress.collect` (lines 469-486): if the configured remote path
is empty or is not a substring of the term, return `False`; otherwise follow
redirects and return whether the terminal status is 200.  `some b` is a
returned boolean, `none` the observation bound being exhausted while the
loop is still redirecting. -/
def collectRedirect (remote_path term : String)
    (resp : Nat → Nat × Option String) (fuel : Nat) : Option Bool :=
  if remote_path = "" then some false
  else if strContains term remote_path then
    match redirectLoop resp 0 fuel with
    | some st => some (st = 200)
    | none => none
  else some false

/-! Helper lemmas about the dict model and the harmonization folds. -/

lemma dictUpdate_ne_nil {α : Type} (kw : List (String × α)) (k : String)
    (v : α) : dictUpdate kw k v ≠ [] := by
  cases kw with
  | nil => simp [dictUpdate]
  | cons hd tl =>
    obtain ⟨k1, v1⟩ := hd
    simp only [dictUpdate]
    split <;> simp

lemma dictGet_mem {α : Type} {kw : List (String × α)} {k : String} {v : α}
    (h : dictGet kw k = some v) : (k, v) ∈ kw := by
  induction kw with
  | nil => simp [dictGet] at h
  | cons hd tl ih =>
    obtain ⟨k1, v1⟩ := hd
    simp only [dictGet] at h
    split at h
    · rename_i he
      injection h with h2
      subst he h2
      exact List.mem_cons_self _ _
    · exact List.mem_cons_of_mem _ (ih h)

lemma dictGet_dictUpdate {α : Type} (kw : List (String × α)) (k k1 : String)
    (v : α) :
    dictGet (dictUpdate kw k v) k1 =
      if k = k1 then some v else dictGet kw k1 := by
  induction kw with
  | nil => simp [dictUpdate, dictGet]
  | cons hd tl ih =>
    obtain ⟨k0, v0⟩ := hd
    by_cases h0 : k0 = k
    · simp only [dictUpdate, if_pos h0, dictGet]
      by_cases h1 : k = k1
      · simp [h1]
      · have h2 : ¬k0 = k1 := by rw [h0]; exact h1
        simp [h1, h2]
    · simp only [dictUpdate, if_neg h0, dictGet]
      by_cases h1 : k0 = k1
      · have h2 : ¬k = k1 := fun he => h0 (h1.trans he.symm)
        simp [h1, h2]
      · simp [h1, ih]

lemma stepNoValidate_ok_ne_nil {g : List String → String → List String}
    {tm : List MetaRow} {key : String} {kw kw1 : List (String × List String)}
    {f : FieldSpec} (h : stepNoValidate g tm key kw f = .ok kw1) :
    kw1 ≠ [] := by
  unfold stepNoValidate at h
  split at h
  · injection h with h1
    subst h1
    exact dictUpdate_ne_nil _ _ _
  · split at h
    · cases h
    · injection h with h1
      subst h1
      exact dictUpdate_ne_nil _ _ _

lemma foldFields_ok_ne_nil {g : List String → String → List String}
    {tm : List MetaRow} {key : String} {fields : List FieldSpec} :
    ∀ {kw kw1 : List (String × List String)},
      foldFields g tm key fields kw = .ok kw1 →
      (kw ≠ [] ∨ fields ≠ []) → kw1 ≠ [] := by
  induction fields with
  | nil =>
    intro kw kw1 h hor
    simp only [foldFields] at h
    injection h with h1
    subst h1
    rcases hor with h1 | h1
    · exact h1
    · exact absurd rfl h1
  | cons f rest ih =>
    intro kw kw1 h _
    simp only [foldFields] at h
    cases hs : stepNoValidate g tm key kw f with
    | error e => rw [hs] at h; cases h
    | ok kw2 =>
      rw [hs] at h
      exact ih h (Or.inl (stepNoValidate_ok_ne_nil hs))

lemma foldTermsMap_ok_ne_nil {g : List String → String → List String}
    {tm : List MetaRow} {tl : List String}
    {entries : List (String × List FieldSpec)} :
    ∀ {kw kw1 : List (String × List String)},
      foldTermsMap g tm tl entries kw = .ok kw1 →
      (kw ≠ [] ∨ ∃ key fields,
        (key, fields) ∈ entries ∧ key ∈ tl ∧ fields ≠ []) →
      kw1 ≠ [] := by
  induction entries with
  | nil =>
    intro kw kw1 h hor
    simp only [foldTermsMap] at h
    injection h with h1
    subst h1
    rcases hor with h1 | ⟨key, fields, hm, _, _⟩
    · exact h1
    · simp at hm
  | cons entry rest ih =>
    intro kw kw1 h hor
    obtain ⟨k0, fs0⟩ := entry
    simp only [foldTermsMap] at h
    split at h
    · rename_i hin
      cases hf : foldFields g tm k0 fs0 kw with
      | error e => rw [hf] at h; cases h
      | ok kw2 =>
        rw [hf] at h
        rcases hor with h1 | ⟨key, fields, hm, htl, hne⟩
        · exact ih h (Or.inl (foldFields_ok_ne_nil hf (Or.inl h1)))
        · rcases List.mem_cons.mp hm with he | hm2
          · have hfs : fields = fs0 := congrArg Prod.snd he
            subst hfs
            exact ih h (Or.inl (foldFields_ok_ne_nil hf (Or.inr hne)))
          · exact ih h (Or.inr ⟨key, fields, hm2, htl, hne⟩)
    · rename_i hnin
      rcases hor with h1 | ⟨key, fields, hm, htl, hne⟩
      · exact ih h (Or.inl h1)
      · rcases List.mem_cons.mp hm with he | hm2
        · have hk : key = k0 := congrArg Prod.fst he
          subst hk
          exact absurd htl hnin
        · exact ih h (Or.inr ⟨key, fields, hm2, htl, hne⟩)

lemma buildTermMetadata_ne_nil_exists
    {tmap : List (String × List FieldSpec)} {tl : List String}
    (h : buildTermMetadata tmap tl ≠ []) :
    ∃ key fields, (key, fields) ∈ tmap ∧ key ∈ tl ∧ fields ≠ [] := by
  by_contra hc
  push_neg at hc
  apply h
  unfold buildTermMetadata
  rw [List.flatMap_eq_nil_iff]
  intro t ht
  cases hg : dictGet tmap t with
  | none => simp
  | some fields =>
    have hmem := dictGet_mem hg
    have hfe : fields = [] := hc t fields hmem ht
    subst hfe
    simp

lemma computePoints_formula {kw : List (String × List String)}
    (h : kw ≠ []) :
    computePoints kw = 100 * (keysWithValues kw : ℚ) / (kw.length : ℚ) := by
  have hlen0 : kw.length ≠ 0 := fun hh => h (List.length_eq_zero.mp hh)
  have hlen : (kw.length : ℚ) ≠ 0 := Nat.cast_ne_zero.mpr hlen0
  unfold computePoints
  split
  · rename_i heq
    rw [heq, mul_div_assoc, div_self hlen, mul_one]
  · ring

lemma computePointsV_eq (kw : List (String × Payload)) :
    computePointsV kw = 100 := by
  unfold computePointsV keysWithValuesV
  rw [List.filter_true kw, if_pos rfl]

/-! Claim C1. -/

/-- C1 (amended): whenever the ConfigTerms wrapper passes the
metadata-availability checks, the injected score equals
`100 * (#kwargs keys with truthy value) / (#kwargs keys)`, where the kwargs
keys are the requested canonical terms that have a TermMap entry with at
least one concrete field (requested terms absent from the TermMap do not
count in the denominator); the kwargs dict is never empty, and when every
key has a truthy value the score is exactly 100.  With `validate=True`
every stored payload is a two-key dict, hence truthy, so the injected score
is always exactly 100. -/
theorem configTerms_points_formula :
    (∀ (p : Plugin) (g : List String → String → List String) (tid : String)
        (tl : List String) (kw : List (String × List String)) (pts : ℚ),
      configTermsWrapper p g tid tl = .ok (.payload kw pts) →
        kw ≠ [] ∧ pts = 100 * (keysWithValues kw : ℚ) / (kw.length : ℚ) ∧
        (keysWithValues kw = kw.length → pts = 100)) ∧
    (∀ (p : Plugin) (g : List String → String → List String)
        (vf : List String → String → Except String ValDict) (tid : String)
        (tl : List String) (kw : List (String × Payload)) (pts : ℚ),
      configTermsWrapperV p g vf tid tl = .ok (.payload kw pts) →
        pts = 100) := by
  constructor
  · intro p g tid tl kw pts h
    unfold configTermsWrapper at h
    split at h
    · simp at h
    · split at h
      · simp at h
      · rename_i hspecs _
        split at h
        · simp at h
        · rename_i kw0 heq
          simp only [Except.ok.injEq, Outcome.payload.injEq] at h
          obtain ⟨hkw, hpts⟩ := h
          subst hkw
          have hsne : buildTermMetadata p.terms_map tl ≠ [] :=
            fun hh => hspecs (by simp [hh])
          have hne : kw0 ≠ [] :=
            foldTermsMap_ok_ne_nil heq
              (Or.inr (buildTermMetadata_ne_nil_exists hsne))
          refine ⟨hne, ?_, ?_⟩
          · rw [← hpts, computePoints_formula hne]
          · intro hall
            rw [← hpts]
            unfold computePoints
            rw [if_pos hall]
  · intro p g vf tid tl kw pts h
    unfold configTermsWrapperV at h
    split at h
    · simp at h
    · split at h
      · simp at h
      · split at h
        · simp at h
        · rename_i kw0 heq
          simp only [Except.ok.injEq, Outcome.payload.injEq] at h
          obtain ⟨hkw, hpts⟩ := h
          rw [← hpts, computePointsV_eq]

/-- C1 counterexample: requested terms `["A", "B"]` where only `A` has a
TermMap entry; `A` resolves to a non-empty value list.  The wrapper passes
the availability checks and injects `points = 100`, while the claimed
formula `100 * (#terms with non-empty resolved value) / (#terms requested)`
gives `100 * 1 / 2 = 50`. -/
theorem configTerms_points_counterexample :
    configTermsWrapper ⟨[⟨"e", none, "v"⟩], [("A", [.scalar "e"])]⟩
        (fun vs _ => vs) "tid" ["A", "B"] =
      .ok (.payload [("A", ["v"])] 100) ∧
    (100 : ℚ) * 1 / 2 = 50 ∧ (100 : ℚ) ≠ 50 := by
  refine ⟨rfl, by norm_num, by norm_num⟩

/-- Witness for `configTerms_points_formula` at a concrete input. -/
theorem configTerms_points_formula_witness :
    ([("A", ["v"])] : List (String × List String)) ≠ [] ∧
    (100 : ℚ) = 100 * (keysWithValues [("A", ["v"])] : ℚ) /
      ((([("A", ["v"])] : List (String × List String))).length : ℚ) ∧
    (keysWithValues [("A", ["v"])] =
      ([("A", ["v"])] : List (String × List String)).length →
      (100 : ℚ) = 100) :=
  configTerms_points_formula.1 ⟨[⟨"e", none, "v"⟩], [("A", [.scalar "e"])]⟩
    (fun vs _ => vs) "tid" ["A", "B"] [("A", ["v"])] 100 (by rfl)

/-! Claim C4. -/

/-- C4: a requested term id for which no TermMap entry resolves to any
concrete field makes the wrapper return `(0, msg)` whose message contains
the text `not defined in configuration`, without raising; a term id whose
resolved fields match no metadata row makes it return `(0, msg)` with the
no-access-information message, also without raising. -/
theorem configTerms_no_metadata (p : Plugin)
    (g : List String → String → List String) (tid : String)
    (tl : List String) :
    (buildTermMetadata p.terms_map tl = [] →
      configTermsWrapper p g tid tl = .ok (.noMetadata (msgNotDefined tid)) ∧
      ∃ a b : String,
        msgNotDefined tid = a ++ ("not defined in configuration" ++ b)) ∧
    (buildTermMetadata p.terms_map tl ≠ [] →
      check_metadata_terms_with_values p.metadata
          (buildTermMetadata p.terms_map tl) = [] →
      configTermsWrapper p g tid tl =
        .ok (.noMetadata (msgNoAccessInfo tl tid))) := by
  constructor
  · intro h
    constructor
    · unfold configTermsWrapper
      rw [if_pos (List.isEmpty_iff.mpr h)]
    · refine ⟨"Metadata values are ", " for the term " ++ tid, ?_⟩
      unfold msgNotDefined
      rw [← String.append_assoc, ← String.append_assoc]
      have hlit : ("Metadata values are " ++ "not defined in configuration" ++
          " for the term " : String) =
          "Metadata values are not defined in configuration for the term " :=
        rfl
      rw [hlit]
  · intro h1 h2
    unfold configTermsWrapper
    rw [if_neg (fun hh => h1 (List.isEmpty_iff.mp hh)),
      if_pos (List.isEmpty_iff.mpr h2)]

/-- Witness for `configTerms_no_metadata` at a concrete input: empty TermMap,
so no field resolves, and the wrapper returns the not-defined message. -/
theorem configTerms_no_metadata_witness :
    configTermsWrapper ⟨[], []⟩ (fun vs _ => vs) "identifier_term" ["A"] =
      .ok (.noMetadata (msgNotDefined "identifier_term")) ∧
    ∃ a b : String,
      msgNotDefined "identifier_term" =
        a ++ ("not defined in configuration" ++ b) :=
  (configTerms_no_metadata ⟨[], []⟩ (fun vs _ => vs) "identifier_term"
    ["A"]).1 (by rfl)

/-! Claim C5: helper lemmas characterising when the harmonization loop
raises. -/

lemma stepNoValidate_eq_ok_empty {g : List String → String → List String}
    {tm : List MetaRow} {key : String} {kw : List (String × List String)}
    {f : FieldSpec} (h : matchField tm f = []) :
    stepNoValidate g tm key kw f =
      .ok (dictUpdate kw key (mergePrev kw key [])) := by
  unfold stepNoValidate
  rw [if_pos (List.isEmpty_iff.mpr h)]

lemma stepNoValidate_eq_error {g : List String → String → List String}
    {tm : List MetaRow} {key : String} {kw : List (String × List String)}
    {f : FieldSpec} (h1 : matchField tm f ≠ [])
    (h2 : g (matchField tm f) key = []) :
    stepNoValidate g tm key kw f =
      .error ("No values for metadata element " ++ f.elementName ++
        " resulted from the homogenization process") := by
  unfold stepNoValidate
  rw [if_neg (fun hh => h1 (List.isEmpty_iff.mp hh)),
    if_pos (List.isEmpty_iff.mpr h2)]

lemma stepNoValidate_eq_ok_gathered
    {g : List String → String → List String} {tm : List MetaRow}
    {key : String} {kw : List (String × List String)} {f : FieldSpec}
    (h1 : matchField tm f ≠ []) (h2 : g (matchField tm f) key ≠ []) :
    stepNoValidate g tm key kw f =
      .ok (dictUpdate kw key (mergePrev kw key (g (matchField tm f) key))) := by
  unfold stepNoValidate
  rw [if_neg (fun hh => h1 (List.isEmpty_iff.mp hh)),
    if_neg (fun hh => h2 (List.isEmpty_iff.mp hh))]

lemma foldFields_cons_ok {g : List String → String → List String}
    {tm : List MetaRow} {key : String} {f : FieldSpec} {rest : List FieldSpec}
    {kw kw1 : List (String × List String)}
    (hs : stepNoValidate g tm key kw f = .ok kw1) :
    foldFields g tm key (f :: rest) kw = foldFields g tm key rest kw1 := by
  simp only [foldFields, hs]

lemma foldFields_cons_err {g : List String → String → List String}
    {tm : List MetaRow} {key : String} {f : FieldSpec} {rest : List FieldSpec}
    {kw : List (String × List String)} {e : String}
    (hs : stepNoValidate g tm key kw f = .error e) :
    foldFields g tm key (f :: rest) kw = .error e := by
  simp only [foldFields, hs]

lemma foldFields_error_iff {g : List String → String → List String}
    {tm : List MetaRow} {key : String} {fields : List FieldSpec} :
    ∀ {kw : List (String × List String)},
      (∃ e, foldFields g tm key fields kw = .error e) ↔
      ∃ f ∈ fields, matchField tm f ≠ [] ∧ g (matchField tm f) key = [] := by
  induction fields with
  | nil => intro kw; simp [foldFields]
  | cons f rest ih =>
    intro kw
    by_cases h1 : matchField tm f = []
    · rw [foldFields_cons_ok (stepNoValidate_eq_ok_empty h1), ih]
      simp only [List.mem_cons]
      constructor
      · rintro ⟨f1, hm, hb⟩
        exact ⟨f1, Or.inr hm, hb⟩
      · rintro ⟨f1, hm, hb⟩
        rcases hm with he | hm
        · subst he
          exact absurd h1 hb.1
        · exact ⟨f1, hm, hb⟩
    · by_cases h2 : g (matchField tm f) key = []
      · rw [foldFields_cons_err (stepNoValidate_eq_error h1 h2)]
        constructor
        · intro _
          exact ⟨f, List.mem_cons_self _ _, h1, h2⟩
        · intro _
          exact ⟨_, rfl⟩
      · rw [foldFields_cons_ok (stepNoValidate_eq_ok_gathered h1 h2), ih]
        simp only [List.mem_cons]
        constructor
        · rintro ⟨f1, hm, hb⟩
          exact ⟨f1, Or.inr hm, hb⟩
        · rintro ⟨f1, hm, hb⟩
          rcases hm with he | hm
          · subst he
            exact absurd hb.2 h2
          · exact ⟨f1, hm, hb⟩

lemma foldTermsMap_cons_in {g : List String → String → List String}
    {tm : List MetaRow} {tl : List String} {key : String}
    {fields : List FieldSpec} {rest : List (String × List FieldSpec)}
    {kw kw2 : List (String × List String)} (hin : key ∈ tl)
    (hf : foldFields g tm key fields kw = .ok kw2) :
    foldTermsMap g tm tl ((key, fields) :: rest) kw =
      foldTermsMap g tm tl rest kw2 := by
  simp only [foldTermsMap, if_pos hin, hf]

lemma foldTermsMap_cons_in_err {g : List String → String → List String}
    {tm : List MetaRow} {tl : List String} {key : String}
    {fields : List FieldSpec} {rest : List (String × List FieldSpec)}
    {kw : List (String × List String)} {e : String} (hin : key ∈ tl)
    (hf : foldFields g tm key fields kw = .error e) :
    foldTermsMap g tm tl ((key, fields) :: rest) kw = .error e := by
  simp only [foldTermsMap, if_pos hin, hf]

lemma foldTermsMap_cons_nin {g : List String → String → List String}
    {tm : List MetaRow} {tl : List String} {key : String}
    {fields : List FieldSpec} {rest : List (String × List FieldSpec)}
    {kw : List (String × List String)} (hnin : key ∉ tl) :
    foldTermsMap g tm tl ((key, fields) :: rest) kw =
      foldTermsMap g tm tl rest kw := by
  simp only [foldTermsMap, if_neg hnin]

lemma foldTermsMap_error_iff {g : List String → String → List String}
    {tm : List MetaRow} {tl : List String}
    {entries : List (String × List FieldSpec)} :
    ∀ {kw : List (String × List String)},
      (∃ e, foldTermsMap g tm tl entries kw = .error e) ↔
      ∃ key fields, (key, fields) ∈ entries ∧ key ∈ tl ∧
        ∃ f ∈ fields, matchField tm f ≠ [] ∧
          g (matchField tm f) key = [] := by
  induction entries with
  | nil => intro kw; simp [foldTermsMap]
  | cons entry rest ih =>
    intro kw
    obtain ⟨k0, fs0⟩ := entry
    by_cases hin : k0 ∈ tl
    · by_cases hbad : ∃ f ∈ fs0, matchField tm f ≠ [] ∧
        g (matchField tm f) k0 = []
      · obtain ⟨e, he⟩ := (@foldFields_error_iff g tm k0 fs0 kw).mpr hbad
        rw [foldTermsMap_cons_in_err hin he]
        constructor
        · intro _
          exact ⟨k0, fs0, List.mem_cons_self _ _, hin, hbad⟩
        · intro _
          exact ⟨e, rfl⟩
      · have hok : ∀ e, foldFields g tm k0 fs0 kw ≠ .error e := by
          intro e he
          exact hbad (foldFields_error_iff.mp ⟨e, he⟩)
        cases hf : foldFields g tm k0 fs0 kw with
        | error e => exact absurd hf (hok e)
        | ok kw2 =>
          rw [foldTermsMap_cons_in hin hf, ih]
          simp only [List.mem_cons]
          constructor
          · rintro ⟨key, fields, hm, htl, hb⟩
            exact ⟨key, fields, Or.inr hm, htl, hb⟩
          · rintro ⟨key, fields, hm, htl, hb⟩
            rcases hm with he | hm
            · have hk : key = k0 := congrArg Prod.fst he
              have hfs : fields = fs0 := congrArg Prod.snd he
              subst hk hfs
              exact absurd hb hbad
            · exact ⟨key, fields, hm, htl, hb⟩
    · rw [foldTermsMap_cons_nin hin, ih]
      simp only [List.mem_cons]
      constructor
      · rintro ⟨key, fields, hm, htl, hb⟩
        exact ⟨key, fields, Or.inr hm, htl, hb⟩
      · rintro ⟨key, fields, hm, htl, hb⟩
        rcases hm with he | hm
        · have hk : key = k0 := congrArg Prod.fst he
          subst hk
          exact absurd htl hin
        · exact ⟨key, fields, hm, htl, hb⟩

/-- Error characterization of the `validate=False` wrapper: it raises
exactly when the availability checks pass and some processed concrete
field has matching metadata rows whose homogenization through `gather`
yields the empty list. -/
theorem configTerms_raises_iff_gather_empty (p : Plugin)
    (g : List String → String → List String) (tid : String)
    (tl : List String) :
    (∃ e, configTermsWrapper p g tid tl = .error e) ↔
      (buildTermMetadata p.terms_map tl ≠ [] ∧
       check_metadata_terms_with_values p.metadata
         (buildTermMetadata p.terms_map tl) ≠ [] ∧
       ∃ key fields, (key, fields) ∈ p.terms_map ∧ key ∈ tl ∧
         ∃ f ∈ fields,
           matchField (check_metadata_terms_with_values p.metadata
             (buildTermMetadata p.terms_map tl)) f ≠ [] ∧
           g (matchField (check_metadata_terms_with_values p.metadata
             (buildTermMetadata p.terms_map tl)) f) key = []) := by
  unfold configTermsWrapper
  by_cases h1 : buildTermMetadata p.terms_map tl = []
  · rw [if_pos (List.isEmpty_iff.mpr h1)]
    simp [h1]
  · rw [if_neg (fun hh => h1 (List.isEmpty_iff.mp hh))]
    by_cases h2 : check_metadata_terms_with_values p.metadata
        (buildTermMetadata p.terms_map tl) = []
    · rw [if_pos (List.isEmpty_iff.mpr h2)]
      simp [h2]
    · rw [if_neg (fun hh => h2 (List.isEmpty_iff.mp hh))]
      have hmain : (∃ e, (match foldTermsMap g
          (check_metadata_terms_with_values p.metadata
            (buildTermMetadata p.terms_map tl)) tl p.terms_map [] with
          | .error e => (.error e : Except String (Outcome (List String)))
          | .ok kw => .ok (.payload kw (computePoints kw))) = .error e) ↔
          ∃ e, foldTermsMap g
            (check_metadata_terms_with_values p.metadata
              (buildTermMetadata p.terms_map tl)) tl p.terms_map [] =
            .error e := by
        cases hf : foldTermsMap g
            (check_metadata_terms_with_values p.metadata
              (buildTermMetadata p.terms_map tl)) tl p.terms_map [] with
        | error e => simp
        | ok kw => simp
      rw [hmain, foldTermsMap_error_iff]
      simp [h1, h2]

lemma stepValidate_eq_ok_gathered {g : List String → String → List String}
    {vf : List String → String → Except String ValDict} {tm : List MetaRow}
    {ts key : String} {kw : List (String × Payload)} {f : FieldSpec}
    {d : ValDict} (h1 : matchField tm f ≠ [])
    (h2 : g (matchField tm f) key ≠ [])
    (h3 : vf (g (matchField tm f) key) ts = .ok d) :
    stepValidate g vf tm ts key kw f =
      .ok (dictUpdate kw key (mergePayloadPrev kw ts
        ⟨g (matchField tm f) key, d⟩)) := by
  unfold stepValidate
  rw [if_neg (fun hh => h1 (List.isEmpty_iff.mp hh)),
    if_neg (fun hh => h2 (List.isEmpty_iff.mp hh)), h3]

lemma foldFieldsV_cons_ok {g : List String → String → List String}
    {vf : List String → String → Except String ValDict} {tm : List MetaRow}
    {ts key : String} {f : FieldSpec} {rest : List FieldSpec}
    {kw kw1 : List (String × Payload)}
    (hs : stepValidate g vf tm ts key kw f = .ok kw1) :
    foldFieldsV g vf tm ts key (f :: rest) kw =
      foldFieldsV g vf tm ts key rest kw1 := by
  simp only [foldFieldsV, hs]

lemma foldTermsMapV_cons_in {g : List String → String → List String}
    {vf : List String → String → Except String ValDict} {tm : List MetaRow}
    {ts : String} {tl : List String} {key : String}
    {fields : List FieldSpec} {rest : List (String × List FieldSpec)}
    {kw kw2 : List (String × Payload)} (hin : key ∈ tl)
    (hf : foldFieldsV g vf tm ts key fields kw = .ok kw2) :
    foldTermsMapV g vf tm ts tl ((key, fields) :: rest) kw =
      foldTermsMapV g vf tm ts tl rest kw2 := by
  simp only [foldTermsMapV, if_pos hin, hf]

lemma stepValidate_eq_ok_empty {g : List String → String → List String}
    {vf : List String → String → Except String ValDict} {tm : List MetaRow}
    {ts key : String} {kw : List (String × Payload)} {f : FieldSpec}
    (h : matchField tm f = []) :
    stepValidate g vf tm ts key kw f =
      .ok (dictUpdate kw key (mergePayloadPrev kw ts ⟨[], []⟩)) := by
  unfold stepValidate
  rw [if_pos (List.isEmpty_iff.mpr h)]

lemma stepValidate_eq_error_hom {g : List String → String → List String}
    {vf : List String → String → Except String ValDict} {tm : List MetaRow}
    {ts key : String} {kw : List (String × Payload)} {f : FieldSpec}
    (h1 : matchField tm f ≠ []) (h2 : g (matchField tm f) key = []) :
    stepValidate g vf tm ts key kw f =
      .error ("No values for metadata element " ++ f.elementName ++
        " resulted from the homogenization process") := by
  unfold stepValidate
  rw [if_neg (fun hh => h1 (List.isEmpty_iff.mp hh)),
    if_pos (List.isEmpty_iff.mpr h2)]

lemma stepValidate_eq_error_val {g : List String → String → List String}
    {vf : List String → String → Except String ValDict} {tm : List MetaRow}
    {ts key : String} {kw : List (String × Payload)} {f : FieldSpec}
    {e : String} (h1 : matchField tm f ≠ [])
    (h2 : g (matchField tm f) key ≠ [])
    (h3 : vf (g (matchField tm f) key) ts = .error e) :
    stepValidate g vf tm ts key kw f = .error e := by
  unfold stepValidate
  rw [if_neg (fun hh => h1 (List.isEmpty_iff.mp hh)),
    if_neg (fun hh => h2 (List.isEmpty_iff.mp hh)), h3]

lemma foldFieldsV_cons_err {g : List String → String → List String}
    {vf : List String → String → Except String ValDict} {tm : List MetaRow}
    {ts key : String} {f : FieldSpec} {rest : List FieldSpec}
    {kw : List (String × Payload)} {e : String}
    (hs : stepValidate g vf tm ts key kw f = .error e) :
    foldFieldsV g vf tm ts key (f :: rest) kw = .error e := by
  simp only [foldFieldsV, hs]

lemma foldFieldsV_error_iff {g : List String → String → List String}
    {vf : List String → String → Except String ValDict} {tm : List MetaRow}
    {ts key : String} {fields : List FieldSpec} :
    ∀ {kw : List (String × Payload)},
      (∃ e, foldFieldsV g vf tm ts key fields kw = .error e) ↔
      ∃ f ∈ fields, matchField tm f ≠ [] ∧
        (g (matchField tm f) key = [] ∨
          ∃ e2, vf (g (matchField tm f) key) ts = .error e2) := by
  induction fields with
  | nil => intro kw; simp [foldFieldsV]
  | cons f rest ih =>
    intro kw
    by_cases h1 : matchField tm f = []
    · rw [foldFieldsV_cons_ok (stepValidate_eq_ok_empty h1), ih]
      simp only [List.mem_cons]
      constructor
      · rintro ⟨f1, hm, hb⟩
        exact ⟨f1, Or.inr hm, hb⟩
      · rintro ⟨f1, hm, hb⟩
        rcases hm with he | hm
        · subst he
          exact absurd h1 hb.1
        · exact ⟨f1, hm, hb⟩
    · by_cases h2 : g (matchField tm f) key = []
      · rw [foldFieldsV_cons_err (stepValidate_eq_error_hom h1 h2)]
        constructor
        · intro _
          exact ⟨f, List.mem_cons_self _ _, h1, Or.inl h2⟩
        · intro _
          exact ⟨_, rfl⟩
      · by_cases h3 : ∃ e2, vf (g (matchField tm f) key) ts = .error e2
        · obtain ⟨e2, he2⟩ := h3
          rw [foldFieldsV_cons_err (stepValidate_eq_error_val h1 h2 he2)]
          constructor
          · intro _
            exact ⟨f, List.mem_cons_self _ _, h1, Or.inr ⟨e2, he2⟩⟩
          · intro _
            exact ⟨_, rfl⟩
        · have hok : ∃ d, vf (g (matchField tm f) key) ts = .ok d := by
            cases hv : vf (g (matchField tm f) key) ts with
            | error e2 => exact absurd ⟨e2, hv⟩ h3
            | ok d => exact ⟨d, rfl⟩
          obtain ⟨d, hd⟩ := hok
          rw [foldFieldsV_cons_ok (stepValidate_eq_ok_gathered h1 h2 hd), ih]
          simp only [List.mem_cons]
          constructor
          · rintro ⟨f1, hm, hb⟩
            exact ⟨f1, Or.inr hm, hb⟩
          · rintro ⟨f1, hm, hb⟩
            rcases hm with he | hm
            · subst he
              rcases hb.2 with hx | hx
              · exact absurd hx h2
              · exact absurd hx h3
            · exact ⟨f1, hm, hb⟩

lemma foldTermsMapV_cons_in_err {g : List String → String → List String}
    {vf : List String → String → Except String ValDict} {tm : List MetaRow}
    {ts : String} {tl : List String} {key : String}
    {fields : List FieldSpec} {rest : List (String × List FieldSpec)}
    {kw : List (String × Payload)} {e : String} (hin : key ∈ tl)
    (hf : foldFieldsV g vf tm ts key fields kw = .error e) :
    foldTermsMapV g vf tm ts tl ((key, fields) :: rest) kw = .error e := by
  simp only [foldTermsMapV, if_pos hin, hf]

lemma foldTermsMapV_cons_nin {g : List String → String → List String}
    {vf : List String → String → Except String ValDict} {tm : List MetaRow}
    {ts : String} {tl : List String} {key : String}
    {fields : List FieldSpec} {rest : List (String × List FieldSpec)}
    {kw : List (String × Payload)} (hnin : key ∉ tl) :
    foldTermsMapV g vf tm ts tl ((key, fields) :: rest) kw =
      foldTermsMapV g vf tm ts tl rest kw := by
  simp only [foldTermsMapV, if_neg hnin]

lemma foldTermsMapV_error_iff {g : List String → String → List String}
    {vf : List String → String → Except String ValDict} {tm : List MetaRow}
    {ts : String} {tl : List String}
    {entries : List (String × List FieldSpec)} :
    ∀ {kw : List (String × Payload)},
      (∃ e, foldTermsMapV g vf tm ts tl entries kw = .error e) ↔
      ∃ key fields, (key, fields) ∈ entries ∧ key ∈ tl ∧
        ∃ f ∈ fields, matchField tm f ≠ [] ∧
          (g (matchField tm f) key = [] ∨
            ∃ e2, vf (g (matchField tm f) key) ts = .error e2) := by
  induction entries with
  | nil => intro kw; simp [foldTermsMapV]
  | cons entry rest ih =>
    intro kw
    obtain ⟨k0, fs0⟩ := entry
    by_cases hin : k0 ∈ tl
    · by_cases hbad : ∃ f ∈ fs0, matchField tm f ≠ [] ∧
        (g (matchField tm f) k0 = [] ∨
          ∃ e2, vf (g (matchField tm f) k0) ts = .error e2)
      · obtain ⟨e, he⟩ := (@foldFieldsV_error_iff g vf tm ts k0 fs0 kw).mpr hbad
        rw [foldTermsMapV_cons_in_err hin he]
        constructor
        · intro _
          exact ⟨k0, fs0, List.mem_cons_self _ _, hin, hbad⟩
        · intro _
          exact ⟨e, rfl⟩
      · have hok : ∀ e, foldFieldsV g vf tm ts k0 fs0 kw ≠ .error e := by
          intro e he
          exact hbad (foldFieldsV_error_iff.mp ⟨e, he⟩)
        cases hf : foldFieldsV g vf tm ts k0 fs0 kw with
        | error e => exact absurd hf (hok e)
        | ok kw2 =>
          rw [foldTermsMapV_cons_in hin hf, ih]
          simp only [List.mem_cons]
          constructor
          · rintro ⟨key, fields, hm, htl, hb⟩
            exact ⟨key, fields, Or.inr hm, htl, hb⟩
          · rintro ⟨key, fields, hm, htl, hb⟩
            rcases hm with he | hm
            · have hk : key = k0 := congrArg Prod.fst he
              have hfs : fields = fs0 := congrArg Prod.snd he
              subst hk hfs
              exact absurd hb hbad
            · exact ⟨key, fields, hm, htl, hb⟩
    · rw [foldTermsMapV_cons_nin hin, ih]
      simp only [List.mem_cons]
      constructor
      · rintro ⟨key, fields, hm, htl, hb⟩
        exact ⟨key, fields, Or.inr hm, htl, hb⟩
      · rintro ⟨key, fields, hm, htl, hb⟩
        rcases hm with he | hm
        · have hk : key = k0 := congrArg Prod.fst he
          subst hk
          exact absurd htl hin
        · exact ⟨key, fields, hm, htl, hb⟩

/-- C5 (amended): the `validate=False` wrapper raises exactly when the
availability checks pass and some processed field has matching rows whose
homogenization through `gather` is empty — there that is the only
propagating error class.  The `validate=True` wrapper admits a SECOND
error class: it raises exactly when the checks pass and some processed
field with matching rows either homogenizes to the empty list or makes
the uncaught `plugin.metadata_utils.validate` call raise (as
`MetadataValuesBase.validate` does on a missing
`Generic:controlled_vocabularies` configuration, src/api/evaluator.py
lines 412-415), and the validate exception propagates out of the
harmonizer. -/
theorem configTerms_error_classes (p : Plugin)
    (g : List String → String → List String)
    (vf : List String → String → Except String ValDict)
    (tid : String) (tl : List String) :
    ((∃ e, configTermsWrapper p g tid tl = .error e) ↔
      (buildTermMetadata p.terms_map tl ≠ [] ∧
       check_metadata_terms_with_values p.metadata
         (buildTermMetadata p.terms_map tl) ≠ [] ∧
       ∃ key fields, (key, fields) ∈ p.terms_map ∧ key ∈ tl ∧
         ∃ f ∈ fields,
           matchField (check_metadata_terms_with_values p.metadata
             (buildTermMetadata p.terms_map tl)) f ≠ [] ∧
           g (matchField (check_metadata_terms_with_values p.metadata
             (buildTermMetadata p.terms_map tl)) f) key = [])) ∧
    ((∃ e, configTermsWrapperV p g vf tid tl = .error e) ↔
      (buildTermMetadata p.terms_map tl ≠ [] ∧
       check_metadata_terms_with_values p.metadata
         (buildTermMetadata p.terms_map tl) ≠ [] ∧
       ∃ key fields, (key, fields) ∈ p.terms_map ∧ key ∈ tl ∧
         ∃ f ∈ fields,
           matchField (check_metadata_terms_with_values p.metadata
             (buildTermMetadata p.terms_map tl)) f ≠ [] ∧
           (g (matchField (check_metadata_terms_with_values p.metadata
              (buildTermMetadata p.terms_map tl)) f) key = [] ∨
            ∃ e2, vf (g (matchField (check_metadata_terms_with_values
              p.metadata (buildTermMetadata p.terms_map tl)) f) key)
              ((tl.getLast?).getD "") = .error e2))) := by
  constructor
  · exact configTerms_raises_iff_gather_empty p g tid tl
  · unfold configTermsWrapperV
    by_cases h1 : buildTermMetadata p.terms_map tl = []
    · rw [if_pos (List.isEmpty_iff.mpr h1)]
      simp [h1]
    · rw [if_neg (fun hh => h1 (List.isEmpty_iff.mp hh))]
      by_cases h2 : check_metadata_terms_with_values p.metadata
          (buildTermMetadata p.terms_map tl) = []
      · rw [if_pos (List.isEmpty_iff.mpr h2)]
        simp [h2]
      · rw [if_neg (fun hh => h2 (List.isEmpty_iff.mp hh))]
        have hmain : (∃ e, (match foldTermsMapV g vf
            (check_metadata_terms_with_values p.metadata
              (buildTermMetadata p.terms_map tl))
            ((tl.getLast?).getD "") tl p.terms_map [] with
            | .error e => (.error e : Except String (Outcome Payload))
            | .ok kw => .ok (.payload kw (computePointsV kw))) = .error e) ↔
            ∃ e, foldTermsMapV g vf
              (check_metadata_terms_with_values p.metadata
                (buildTermMetadata p.terms_map tl))
              ((tl.getLast?).getD "") tl p.terms_map [] = .error e := by
          cases hf : foldTermsMapV g vf
              (check_metadata_terms_with_values p.metadata
                (buildTermMetadata p.terms_map tl))
              ((tl.getLast?).getD "") tl p.terms_map [] with
          | error e => simp
          | ok kw => simp
        rw [hmain, foldTermsMapV_error_iff]
        simp [h1, h2]

/-- C5 counterexample: with `validate=True`, metadata present and
homogenization succeeding, the uncaught call to
`MetadataValuesBase.validate` raises its missing-configuration `Exception`
(src/api/evaluator.py lines 412-415) because
`Generic:controlled_vocabularies` is not set, and that exception — a
configuration error, not the homogenization fault — propagates out of the
wrapper, so the homogenization fault is not the only error class that can
escape the harmonizer. -/
theorem configTerms_second_error_counterexample :
    configTermsWrapperV ⟨[⟨"e", none, "v"⟩], [("K", [.scalar "e"])]⟩
        (fun vs _ => vs)
        (MetadataValuesBase_validate none (fun _ _ => .ok [])
          (fun _ _ => .ok []) (fun _ => false) (fun _ => false)
          (fun _ => false) (fun _ _ => none))
        "tid" ["K"] =
      .error ("Controlled vocabularies not defined in configuration: " ++
        "please check Generic:controlled_vocabularies") ∧
    ("Controlled vocabularies not defined in configuration: " ++
        "please check Generic:controlled_vocabularies" : String) ≠
      ("No values for metadata element e resulted from the " ++
        "homogenization process") := by
  exact ⟨rfl, by decide⟩

/-! Claim C3. -/

lemma matchField_nil (f : FieldSpec) : matchField [] f = [] := by
  cases f <;> rfl

/-- C3 (amended): when two concrete fields map to the same canonical term
and are processed in successive passes, with `validate=False` the value
lists are concatenated, the most recent pass first; with `validate=True`
they are NOT concatenated: the Python merge
`_metadata_payload.update(_previous_payload)` lets the earlier pass
overwrite the keys of the most recent one, and since both payloads carry
exactly the keys `values` and `validation`, the first processed pass's
payload (its values and its validation dict) survives unchanged and every
later pass is discarded. -/
theorem configTerms_merge_passes (md : List MetaRow)
    (g : List String → String → List String)
    (vf : List String → String → Except String ValDict) (f1 f2 : FieldSpec)
    (tm : List MetaRow) (v1 v2 g1 g2 : List String) (d1 d2 : ValDict)
    (tid : String)
    (htm : check_metadata_terms_with_values md
      [f1.toRowSpec, f2.toRowSpec] = tm)
    (hv1 : matchField tm f1 = v1) (hv1n : v1 ≠ [])
    (hg1 : g v1 "K" = g1) (hg1n : g1 ≠ [])
    (hv2 : matchField tm f2 = v2) (hv2n : v2 ≠ [])
    (hg2 : g v2 "K" = g2) (hg2n : g2 ≠ [])
    (hd1 : vf g1 "K" = .ok d1) (hd2 : vf g2 "K" = .ok d2) :
    configTermsWrapper ⟨md, [("K", [f1, f2])]⟩ g tid ["K"] =
      .ok (.payload [("K", g2 ++ g1)] 100) ∧
    configTermsWrapperV ⟨md, [("K", [f1, f2])]⟩ g vf tid ["K"] =
      .ok (.payload [("K", ⟨g1, d1⟩)] 100) := by
  have hbuild : buildTermMetadata [("K", [f1, f2])] ["K"] =
      [f1.toRowSpec, f2.toRowSpec] := rfl
  have htmne : tm ≠ [] := by
    intro hh
    subst hh
    rw [matchField_nil] at hv1
    exact hv1n hv1.symm
  have hcne : ¬(([f1.toRowSpec, f2.toRowSpec] :
      List (String × Option String)).isEmpty = true) := by simp
  have htmne2 : ¬(tm.isEmpty = true) :=
    fun hh => htmne (List.isEmpty_iff.mp hh)
  have hm1 : matchField tm f1 ≠ [] := by rw [hv1]; exact hv1n
  have hgm1 : g (matchField tm f1) "K" = g1 := by rw [hv1, hg1]
  have hgm1n : g (matchField tm f1) "K" ≠ [] := by rw [hgm1]; exact hg1n
  have hm2 : matchField tm f2 ≠ [] := by rw [hv2]; exact hv2n
  have hgm2 : g (matchField tm f2) "K" = g2 := by rw [hv2, hg2]
  have hgm2n : g (matchField tm f2) "K" ≠ [] := by rw [hgm2]; exact hg2n
  constructor
  · have hstep1 : stepNoValidate g tm "K" [] f1 = .ok [("K", g1)] := by
      rw [stepNoValidate_eq_ok_gathered hm1 hgm1n, hgm1]
      simp [mergePrev, dictGet, dictUpdate]
    have hstep2 : stepNoValidate g tm "K" [("K", g1)] f2 =
        .ok [("K", g2 ++ g1)] := by
      rw [stepNoValidate_eq_ok_gathered hm2 hgm2n, hgm2]
      simp [mergePrev, dictGet, dictUpdate]
    have hff : foldFields g tm "K" [f1, f2] [] = .ok [("K", g2 ++ g1)] := by
      rw [foldFields_cons_ok hstep1, foldFields_cons_ok hstep2]
      rfl
    have hftm : foldTermsMap g tm ["K"] [("K", [f1, f2])] [] =
        .ok [("K", g2 ++ g1)] := by
      rw [foldTermsMap_cons_in (by simp) hff]
      rfl
    have hcp : computePoints [("K", g2 ++ g1)] = 100 := by
      unfold computePoints keysWithValues
      have hne : g2 ++ g1 ≠ [] :=
        fun hh => hg1n (List.append_eq_nil.mp hh).2
      simp [hne]
    unfold configTermsWrapper
    dsimp only
    rw [hbuild, htm, if_neg hcne, if_neg htmne2, hftm]
    dsimp only
    rw [hcp]
  · have hvm1 : vf (g (matchField tm f1) "K") "K" = .ok d1 := by
      rw [hgm1]
      exact hd1
    have hvm2 : vf (g (matchField tm f2) "K") "K" = .ok d2 := by
      rw [hgm2]
      exact hd2
    have hstep1 : stepValidate g vf tm "K" "K" [] f1 =
        .ok [("K", ⟨g1, d1⟩)] := by
      rw [stepValidate_eq_ok_gathered hm1 hgm1n hvm1, hgm1]
      simp [mergePayloadPrev, dictGet, dictUpdate]
    have hstep2 : stepValidate g vf tm "K" "K" [("K", ⟨g1, d1⟩)] f2 =
        .ok [("K", ⟨g1, d1⟩)] := by
      rw [stepValidate_eq_ok_gathered hm2 hgm2n hvm2]
      simp [mergePayloadPrev, dictGet, dictUpdate]
    have hff : foldFieldsV g vf tm "K" "K" [f1, f2] [] =
        .ok [("K", ⟨g1, d1⟩)] := by
      rw [foldFieldsV_cons_ok hstep1, foldFieldsV_cons_ok hstep2]
      rfl
    have hftm : foldTermsMapV g vf tm "K" ["K"] [("K", [f1, f2])] [] =
        .ok [("K", ⟨g1, d1⟩)] := by
      rw [foldTermsMapV_cons_in (by simp) hff]
      rfl
    unfold configTermsWrapperV
    dsimp only
    rw [hbuild, htm, if_neg hcne, if_neg htmne2]
    have hts : ((["K"] : List String).getLast?).getD "" = "K" := rfl
    rw [hts, hftm]
    dsimp only
    rw [computePointsV_eq]

/-- C3 counterexample: two fields `e1`, `e2` map to the canonical term `K`;
with `validate=True` the final payload holds only the first pass's values
`["v1"]` and its validation dict; the second pass's `"v2"` is discarded, so
the value lists are not concatenated and the most recent pass does not
overwrite the earlier one. -/
theorem configTerms_merge_counterexample :
    configTermsWrapperV
        ⟨[⟨"e1", none, "v1"⟩, ⟨"e2", none, "v2"⟩],
          [("K", [.scalar "e1", .scalar "e2"])]⟩
        (fun vs _ => vs) (fun vs _ => .ok [("V", (vs, []))]) "tid" ["K"] =
      .ok (.payload [("K", ⟨["v1"], [("V", (["v1"], []))]⟩)] 100) ∧
    (["v1"] : List String) ≠ ["v1", "v2"] := by
  exact ⟨rfl, by decide⟩

/-- Witness for `configTerms_merge_passes` at a concrete input. -/
theorem configTerms_merge_passes_witness :
    configTermsWrapper
        ⟨[⟨"e1", none, "v1"⟩, ⟨"e2", none, "v2"⟩],
          [("K", [.scalar "e1", .scalar "e2"])]⟩
        (fun vs _ => vs) "tid" ["K"] =
      .ok (.payload [("K", ["v2"] ++ ["v1"])] 100) ∧
    configTermsWrapperV
        ⟨[⟨"e1", none, "v1"⟩, ⟨"e2", none, "v2"⟩],
          [("K", [.scalar "e1", .scalar "e2"])]⟩
        (fun vs _ => vs) (fun vs _ => .ok [("V", (vs, []))]) "tid" ["K"] =
      .ok (.payload [("K", ⟨["v1"], [("V", (["v1"], []))]⟩)] 100) :=
  configTerms_merge_passes
    [⟨"e1", none, "v1"⟩, ⟨"e2", none, "v2"⟩]
    (fun vs _ => vs) (fun vs _ => .ok [("V", (vs, []))])
    (.scalar "e1") (.scalar "e2")
    [⟨"e1", none, "v1"⟩, ⟨"e2", none, "v2"⟩]
    ["v1"] ["v2"] ["v1"] ["v2"]
    [("V", (["v1"], []))] [("V", (["v2"], []))] "tid"
    (by rfl) (by rfl) (by decide) (by rfl) (by decide)
    (by rfl) (by decide) (by rfl) (by decide)
    (by rfl) (by rfl)

/-! Claim C2. -/

lemma vocabInner_fold_mem (collect : String → String → Option Bool)
    (vid : String) :
    ∀ (values : List String) (acc : List String × List String) (v : String),
      (v ∈ (values.foldl (fun acc v =>
          match collect vid v with
          | some true => (acc.1 ++ [v], acc.2)
          | some false => (acc.1, acc.2 ++ [v])
          | none => acc) acc).1 ↔
        v ∈ acc.1 ∨ (v ∈ values ∧ collect vid v = some true)) ∧
      (v ∈ (values.foldl (fun acc v =>
          match collect vid v with
          | some true => (acc.1 ++ [v], acc.2)
          | some false => (acc.1, acc.2 ++ [v])
          | none => acc) acc).2 ↔
        v ∈ acc.2 ∨ (v ∈ values ∧ collect vid v = some false)) := by
  intro values
  induction values with
  | nil => intro acc v; simp
  | cons w rest ih =>
    intro acc v
    simp only [List.foldl_cons]
    cases hcw : collect vid w with
    | none =>
      simp only [hcw]
      obtain ⟨ih1, ih2⟩ := ih acc v
      constructor
      · rw [ih1]
        constructor
        · rintro (h | ⟨hm, hc⟩)
          · exact Or.inl h
          · exact Or.inr ⟨List.mem_cons_of_mem _ hm, hc⟩
        · rintro (h | ⟨hm, hc⟩)
          · exact Or.inl h
          · rcases List.mem_cons.mp hm with he | hm2
            · subst he
              rw [hcw] at hc
              simp at hc
            · exact Or.inr ⟨hm2, hc⟩
      · rw [ih2]
        constructor
        · rintro (h | ⟨hm, hc⟩)
          · exact Or.inl h
          · exact Or.inr ⟨List.mem_cons_of_mem _ hm, hc⟩
        · rintro (h | ⟨hm, hc⟩)
          · exact Or.inl h
          · rcases List.mem_cons.mp hm with he | hm2
            · subst he
              rw [hcw] at hc
              simp at hc
            · exact Or.inr ⟨hm2, hc⟩
    | some b =>
      cases b with
      | true =>
        simp only [hcw]
        obtain ⟨ih1, ih2⟩ := ih (acc.1 ++ [w], acc.2) v
        constructor
        · rw [ih1]
          simp only [List.mem_append, List.mem_singleton]
          constructor
          · rintro ((h | he) | ⟨hm, hc⟩)
            · exact Or.inl h
            · subst he
              exact Or.inr ⟨List.mem_cons_self _ _, hcw⟩
            · exact Or.inr ⟨List.mem_cons_of_mem _ hm, hc⟩
          · rintro (h | ⟨hm, hc⟩)
            · exact Or.inl (Or.inl h)
            · rcases List.mem_cons.mp hm with he | hm2
              · subst he
                exact Or.inl (Or.inr rfl)
              · exact Or.inr ⟨hm2, hc⟩
        · rw [ih2]
          constructor
          · rintro (h | ⟨hm, hc⟩)
            · exact Or.inl h
            · exact Or.inr ⟨List.mem_cons_of_mem _ hm, hc⟩
          · rintro (h | ⟨hm, hc⟩)
            · exact Or.inl h
            · rcases List.mem_cons.mp hm with he | hm2
              · subst he
                rw [hcw] at hc
                simp at hc
              · exact Or.inr ⟨hm2, hc⟩
      | false =>
        simp only [hcw]
        obtain ⟨ih1, ih2⟩ := ih (acc.1, acc.2 ++ [w]) v
        constructor
        · rw [ih1]
          constructor
          · rintro (h | ⟨hm, hc⟩)
            · exact Or.inl h
            · exact Or.inr ⟨List.mem_cons_of_mem _ hm, hc⟩
          · rintro (h | ⟨hm, hc⟩)
            · exact Or.inl h
            · rcases List.mem_cons.mp hm with he | hm2
              · subst he
                rw [hcw] at hc
                simp at hc
              · exact Or.inr ⟨hm2, hc⟩
        · rw [ih2]
          simp only [List.mem_append, List.mem_singleton]
          constructor
          · rintro ((h | he) | ⟨hm, hc⟩)
            · exact Or.inl h
            · subst he
              exact Or.inr ⟨List.mem_cons_self _ _, hcw⟩
            · exact Or.inr ⟨List.mem_cons_of_mem _ hm, hc⟩
          · rintro (h | ⟨hm, hc⟩)
            · exact Or.inl (Or.inl h)
            · rcases List.mem_cons.mp hm with he | hm2
              · subst he
                exact Or.inl (Or.inr rfl)
              · exact Or.inr ⟨hm2, hc⟩

lemma validate_any_vocabulary_get (hasClass : String → Bool)
    (collect : String → String → Option Bool) (values : List String) :
    ∀ (vocabs : List String)
      (acc : List (String × (List String × List String))) (vid : String),
      dictGet (vocabs.foldl (fun acc vid =>
        if hasClass vid then
          dictUpdate acc vid (vocabInner collect vid values)
        else acc) acc) vid =
      if vid ∈ vocabs ∧ hasClass vid = true then
        some (vocabInner collect vid values)
      else dictGet acc vid := by
  intro vocabs
  induction vocabs with
  | nil => intro acc vid; simp
  | cons w rest ih =>
    intro acc vid
    simp only [List.foldl_cons]
    by_cases hw : hasClass w = true
    · rw [if_pos hw, ih]
      by_cases hv : vid ∈ rest ∧ hasClass vid = true
      · rw [if_pos hv, if_pos ⟨List.mem_cons_of_mem _ hv.1, hv.2⟩]
      · rw [if_neg hv, dictGet_dictUpdate]
        by_cases hwv : w = vid
        · subst hwv
          rw [if_pos rfl, if_pos ⟨List.mem_cons_self _ _, hw⟩]
        · rw [if_neg hwv]
          have hno : ¬(vid ∈ w :: rest ∧ hasClass vid = true) := by
            rintro ⟨hm, hc⟩
            rcases List.mem_cons.mp hm with he | hm2
            · exact hwv he.symm
            · exact hv ⟨hm2, hc⟩
          rw [if_neg hno]
    · rw [if_neg hw, ih]
      by_cases hv : vid ∈ rest ∧ hasClass vid = true
      · rw [if_pos hv, if_pos ⟨List.mem_cons_of_mem _ hv.1, hv.2⟩]
      · rw [if_neg hv]
        have hno : ¬(vid ∈ w :: rest ∧ hasClass vid = true) := by
          rintro ⟨hm, hc⟩
          rcases List.mem_cons.mp hm with he | hm2
          · subst he
            exact hw hc
          · exact hv ⟨hm2, hc⟩
        rw [if_neg hno]

/-- C2 (amended): for every vocabulary id present in the result of
`_validate_any_vocabulary`, a value is in `valid` exactly when it is an
input value whose membership check returned True, and in `non_valid`
exactly when its check returned False; no value is in both lists, but an
input value whose check raised an exception (the per-value
`try`/`except` at src/api/evaluator.py lines 603-610) is appended to
neither list, so such values are omitted from the partition. -/
theorem validate_any_vocabulary_partition (hasClass : String → Bool)
    (collect : String → String → Option Bool) (vocabs values : List String)
    (vid : String) (valid non_valid : List String)
    (h : dictGet (validate_any_vocabulary hasClass collect vocabs values)
      vid = some (valid, non_valid)) :
    (∀ v, v ∈ valid ↔ v ∈ values ∧ collect vid v = some true) ∧
    (∀ v, v ∈ non_valid ↔ v ∈ values ∧ collect vid v = some false) ∧
    (∀ v, ¬(v ∈ valid ∧ v ∈ non_valid)) ∧
    (∀ v, v ∈ values → collect vid v = none →
      v ∉ valid ∧ v ∉ non_valid) := by
  unfold validate_any_vocabulary at h
  rw [validate_any_vocabulary_get] at h
  split at h
  · injection h with h1
    have hi : vocabInner collect vid values = (valid, non_valid) := h1
    unfold vocabInner at hi
    have hmem1 : ∀ v, v ∈ valid ↔ v ∈ values ∧ collect vid v = some true := by
      intro v
      obtain ⟨hm1, _⟩ := vocabInner_fold_mem collect vid values ([], []) v
      rw [hi] at hm1
      simpa using hm1
    have hmem2 : ∀ v, v ∈ non_valid ↔
        v ∈ values ∧ collect vid v = some false := by
      intro v
      obtain ⟨_, hm2⟩ := vocabInner_fold_mem collect vid values ([], []) v
      rw [hi] at hm2
      simpa using hm2
    refine ⟨hmem1, hmem2, ?_, ?_⟩
    · rintro v ⟨hv1, hv2⟩
      have ht := ((hmem1 v).mp hv1).2
      have hf := ((hmem2 v).mp hv2).2
      rw [ht] at hf
      simp at hf
    · intro v hv hn
      constructor
      · intro hin
        have ht := ((hmem1 v).mp hin).2
        rw [hn] at ht
        simp at ht
      · intro hin
        have hf := ((hmem2 v).mp hin).2
        rw [hn] at hf
        simp at hf
  · simp [dictGet] at h

/-- C2 counterexample: one vocabulary `V` with a connector class, one input
value `x` whose membership check raises; the result for `V` has both lists
empty, so the input value `x` is omitted from both `valid` and
`non_valid`, contradicting the claimed exact partition. -/
theorem validate_any_vocabulary_counterexample :
    validate_any_vocabulary (fun _ => true) (fun _ _ => none) ["V"] ["x"] =
      [("V", ([], []))] ∧
    "x" ∈ (["x"] : List String) ∧ "x" ∉ ([] : List String) := by
  exact ⟨rfl, by simp, by simp⟩

/-- Witness for `validate_any_vocabulary_partition` at a concrete input. -/
theorem validate_any_vocabulary_partition_witness :
    ¬("x" ∈ (["x"] : List String) ∧ "x" ∈ ([] : List String)) :=
  (validate_any_vocabulary_partition (fun _ => true)
    (fun _ v => some (v == "x")) ["V"] ["x"] "V" ["x"] [] (by rfl)).2.2.1 "x"

/-! Claim C6. -/

lemma exists_getLast?_cons (v : String) (rest : List String) :
    ∃ l, (v :: rest).getLast? = some l := by
  induction rest generalizing v with
  | nil => exact ⟨v, rfl⟩
  | cons w ws ih =>
    obtain ⟨l, hl⟩ := ih w
    exact ⟨l, by rw [← hl]; rfl⟩

/-- C6 (amended): whenever the dispatch loop of `gather` raises (category
unrecognized, or a handler raising), `gather` catches the exception and
still returns — but the `except` block loop
`for element_values in element_values_list: _values = [element_values]`
leaves the singleton of the LAST input value, so the fallback equals the
input formatted to a list only when the input has exactly one element. -/
theorem gather_fallback (h : String → String → GatherStep)
    (evl : List String) (el : String) :
    (gatherDispatchLoop h el evl [] = .error () →
      ∃ l, evl.getLast? = some l ∧ gather h evl el = [some l]) ∧
    (el ∉ recognizedConditional → el ∉ recognizedUnconditional → evl ≠ [] →
      gatherDispatchLoop h el evl [] = .error ()) ∧
    (∀ v, el ∉ recognizedConditional → el ∉ recognizedUnconditional →
      gather h [v] el = [some v]) := by
  refine ⟨?_, ?_, ?_⟩
  · intro he
    cases evl with
    | nil => simp [gatherDispatchLoop] at he
    | cons v rest =>
      obtain ⟨l, hl⟩ := exists_getLast?_cons v rest
      refine ⟨l, hl, ?_⟩
      unfold gather
      rw [he, hl]
  · intro h1 h2 hne
    cases evl with
    | nil => exact absurd rfl hne
    | cons v rest =>
      simp only [gatherDispatchLoop]
      rw [if_neg h1, if_neg h2]
  · intro v h1 h2
    have he : gatherDispatchLoop h el [v] [] = .error () := by
      simp only [gatherDispatchLoop]
      rw [if_neg h1, if_neg h2]
    unfold gather
    rw [he]
    rfl

/-- C6 counterexample: two input values and an unrecognized category; the
fallback returns the singleton of the last value, not the two input values
formatted to a list. -/
theorem gather_fallback_counterexample :
    gather (fun _ _ => .exn) ["a", "b"] "Unknown" = [some "b"] ∧
    ([some "b"] : List (Option String)) ≠ [some "a", some "b"] := by
  exact ⟨rfl, by decide⟩

/-- Witness for `gather_fallback` at a concrete input. -/
theorem gather_fallback_witness :
    gather (fun _ _ => GatherStep.exn) ["a"] "Unknown" = [some "a"] :=
  (gather_fallback (fun _ _ => GatherStep.exn) ["a"] "Unknown").2.2 "a"
    (by decide) (by decide)

/-! Claim C7. -/

/-- C7 (amended): the decorated indicator `rda_f1_01d` yields a
`(points, message)` result whenever the wrapper returns early (no metadata)
or the resolved `Data Identifier` list is present and non-empty; with an
empty resolved identifier list, `eval_persistency` computes
`round(100 / len(id_list))` and a `ZeroDivisionError` escapes. -/
theorem rda_f1_01d_total (p : Plugin)
    (g : List String → String → List String) (check : String → Bool)
    (tl : List String) :
    (∀ msg, configTermsWrapper p g "identifier_term_data" tl =
        .ok (.noMetadata msg) →
      rda_f1_01d p g check tl = .ok (0, .text msg)) ∧
    (∀ kw pts ids, configTermsWrapper p g "identifier_term_data" tl =
        .ok (.payload kw pts) →
      dictGet kw "Data Identifier" = some ids → ids ≠ [] →
      ∃ r, rda_f1_01d p g check tl = .ok r) := by
  constructor
  · intro msg hw
    unfold rda_f1_01d
    rw [hw]
  · intro kw pts ids hw hids hne
    unfold rda_f1_01d
    rw [hw]
    dsimp only
    rw [hids]
    dsimp only
    have hpr : ∃ pr, eval_persistency check ids "data" = .ok pr := by
      unfold eval_persistency
      rw [if_neg (fun hh => hne (List.isEmpty_iff.mp hh))]
      exact ⟨_, rfl⟩
    obtain ⟨pr, hpr⟩ := hpr
    obtain ⟨p1, p2⟩ := pr
    rw [hpr]
    exact ⟨_, rfl⟩

/-- C7 counterexample: a configuration where the identifier term is defined
but no metadata row matches its field, while another requested term does
match; the wrapper passes its checks and injects an EMPTY `Data Identifier`
list, and the indicator body raises `ZeroDivisionError` instead of
yielding a score. -/
theorem rda_f1_01d_counterexample :
    rda_f1_01d
      ⟨[⟨"title", none, "t"⟩],
        [("Data Identifier", [.scalar "id"]), ("Other", [.scalar "title"])]⟩
      (fun vs _ => vs) (fun _ => true) ["Data Identifier", "Other"] =
    .error "ZeroDivisionError: division by zero" := rfl

/-- Witness for `rda_f1_01d_total` at a concrete input. -/
theorem rda_f1_01d_total_witness :
    ∃ r, rda_f1_01d
      ⟨[⟨"id", none, "10.1234/abc"⟩], [("Data Identifier", [.scalar "id"])]⟩
      (fun vs _ => vs) (fun _ => true) ["Data Identifier"] = .ok r :=
  (rda_f1_01d_total
    ⟨[⟨"id", none, "10.1234/abc"⟩], [("Data Identifier", [.scalar "id"])]⟩
    (fun vs _ => vs) (fun _ => true) ["Data Identifier"]).2
    [("Data Identifier", ["10.1234/abc"])] 100 ["10.1234/abc"]
    (by rfl) (by rfl) (by decide)

/-! Claims C8 and C9. -/

lemma redirectLoop_reach (resp : Nat → Nat × Option String) (N : Nat)
    (hred : ∀ j, j < N → isRedirectStatus (resp j).1 = true)
    (hterm : isRedirectStatus (resp N).1 = false) :
    ∀ (fuel i : Nat), i ≤ N → N < i + fuel →
      redirectLoop resp i fuel = some (resp N).1 := by
  intro fuel
  induction fuel with
  | zero => intro i hi hlt; omega
  | succ fu ih =>
    intro i hi hlt
    by_cases hiN : i = N
    · subst hiN
      simp only [redirectLoop]
      rw [hterm]
      simp
    · have hlt2 : i < N := lt_of_le_of_ne hi hiN
      simp only [redirectLoop]
      rw [hred i hlt2]
      simp only [if_true]
      exact ih (i + 1) (by omega) (by omega)

/-- C8: for the shared redirect-following `collect` of the RoR, COAR and
Library of Congress connectors, when the remote path is configured and
contained in the term, and the response sequence reaches a first
non-redirect status at index `N` (every earlier status strictly between
300 and 400), the loop stops at that terminal status and `collect` returns
True exactly when it is 200, and False for every other terminal status. -/
theorem collectRedirect_terminal (rp term : String)
    (resp : Nat → Nat × Option String) (N : Nat)
    (hrp : rp ≠ "") (hcont : strContains term rp = true)
    (hred : ∀ j, j < N → isRedirectStatus (resp j).1 = true)
    (hterm : isRedirectStatus (resp N).1 = false) :
    redirectLoop resp 0 (N + 1) = some (resp N).1 ∧
    collectRedirect rp term resp (N + 1) =
      some (decide ((resp N).1 = 200)) ∧
    ((resp N).1 = 200 → collectRedirect rp term resp (N + 1) = some true) ∧
    ((resp N).1 ≠ 200 → collectRedirect rp term resp (N + 1) = some false) := by
  have hloop := redirectLoop_reach resp N hred hterm (N + 1) 0 (by omega)
    (by omega)
  have hc : collectRedirect rp term resp (N + 1) =
      some (decide ((resp N).1 = 200)) := by
    unfold collectRedirect
    rw [if_neg hrp, if_pos hcont, hloop]
  refine ⟨hloop, hc, ?_, ?_⟩
  · intro h200
    rw [hc, h200]
    simp
  · intro hne
    rw [hc]
    simp [hne]

/-- Witness for `collectRedirect_terminal` at a concrete input: one 302
redirect followed by a 200. -/
theorem collectRedirect_terminal_witness :
    redirectLoop (fun n => if n = 0 then (302, some "u") else (200, none))
      0 2 = some ((fun n : Nat =>
        if n = 0 then ((302 : Nat), some "u") else (200, none)) 1).1 ∧
    collectRedirect "ror.org" "https://ror.org/05abc"
      (fun n => if n = 0 then (302, some "u") else (200, none)) 2 =
      some (decide (((fun n : Nat =>
        if n = 0 then ((302 : Nat), some "u") else (200, none)) 1).1 = 200)) ∧
    (((fun n : Nat => if n = 0 then ((302 : Nat), some "u")
        else (200, none)) 1).1 = 200 →
      collectRedirect "ror.org" "https://ror.org/05abc"
        (fun n => if n = 0 then (302, some "u") else (200, none)) 2 =
        some true) ∧
    (((fun n : Nat => if n = 0 then ((302 : Nat), some "u")
        else (200, none)) 1).1 ≠ 200 →
      collectRedirect "ror.org" "https://ror.org/05abc"
        (fun n => if n = 0 then (302, some "u") else (200, none)) 2 =
        some false) :=
  collectRedirect_terminal "ror.org" "https://ror.org/05abc"
    (fun n => if n = 0 then (302, some "u") else (200, none)) 1
    (by decide) (by decide)
    (by intro j hj; interval_cases j; decide) (by decide)

/-- C9: the redirect loop has no iteration cap: on a response sequence
whose statuses are all strictly between 300 and 400, the loop never
reaches a terminal status — for every observation bound the model returns
`none` (the loop is still running), and so does `collect` whenever it
enters the loop. -/
theorem redirect_loop_no_cap (resp : Nat → Nat × Option String)
    (hall : ∀ i, isRedirectStatus (resp i).1 = true) :
    (∀ fuel i, redirectLoop resp i fuel = none) ∧
    (∀ rp term, rp ≠ "" → strContains term rp = true →
      ∀ fuel, collectRedirect rp term resp fuel = none) := by
  have hloop : ∀ fuel i, redirectLoop resp i fuel = none := by
    intro fuel
    induction fuel with
    | zero => intro i; rfl
    | succ fu ih =>
      intro i
      simp only [redirectLoop]
      rw [hall i]
      simp only [if_true]
      exact ih (i + 1)
  refine ⟨hloop, ?_⟩
  intro rp term hrp hcont fuel
  unfold collectRedirect
  rw [if_neg hrp, if_pos hcont, hloop fuel 0]

/-- Witness for `redirect_loop_no_cap` at a concrete input: the constant
301-redirect sequence. -/
theorem redirect_loop_no_cap_witness :
    (∀ fuel i, redirectLoop (fun _ => (301, some "u")) i fuel = none) ∧
    (∀ rp term, rp ≠ "" → strContains term rp = true →
      ∀ fuel, collectRedirect rp term (fun _ => (301, some "u")) fuel =
        none) :=
  redirect_loop_no_cap (fun _ => (301, some "u")) (fun _ => rfl)

/-! Claim C10. -/

lemma evalFold (check : String → Bool) (yes no : String → MsgEntry) :
    ∀ (l : List String) (acc : Nat × List MsgEntry),
      l.foldl (fun acc i =>
        if check i then (100, acc.2 ++ [yes i])
        else (acc.1, acc.2 ++ [no i])) acc =
      ((if l.any check then 100 else acc.1),
        acc.2 ++ l.map (fun i => if check i then yes i else no i)) := by
  intro l
  induction l with
  | nil => intro acc; simp
  | cons w rest ih =>
    intro acc
    simp only [List.foldl_cons, List.any_cons, List.map_cons]
    by_cases hw : check w = true
    · rw [if_pos hw, ih]
      simp [hw]
    · rw [if_neg hw, ih]
      have hwf : check w = false := by
        cases hcw : check w
        · rfl
        · exact absurd hcw hw
      simp [hwf]

/-- C10: for every non-empty identifier list, `eval_persistency` and
`eval_uniqueness` return points equal to 100 when at least one identifier
passes the respective check and 0 when none does — never a value strictly
in between — even though the per-identifier share
`round(100 / len(id_list))` is computed and attached to the per-identifier
messages of the passing identifiers. -/
theorem eval_persistency_uniqueness_all_or_nothing
    (checkP checkU : String → Bool) (idl : List String) (dm : String)
    (hne : idl ≠ []) :
    eval_persistency checkP idl dm =
      .ok ((if idl.any checkP then 100 else 0),
        idl.map (fun i =>
          if checkP i then
            ⟨"Found persistent identifier for the " ++ dm ++ ": " ++ i,
              pyRound100Div idl.length⟩
          else
            ⟨"Identifier is not persistent for the " ++ dm ++ ": " ++ i,
              0⟩)) ∧
    ((if idl.any checkP then (100 : Nat) else 0) = 0 ∨
      (if idl.any checkP then (100 : Nat) else 0) = 100) ∧
    eval_uniqueness checkU idl dm =
      .ok ((if idl.any checkU then 100 else 0),
        idl.map (fun i =>
          if checkU i then
            ⟨"Found a globally unique identifier for the " ++ dm ++ ": " ++
              i, pyRound100Div idl.length⟩
          else
            ⟨"Identifier found for the " ++ dm ++
              " is not globally unique: " ++ i, 0⟩)) ∧
    ((if idl.any checkU then (100 : Nat) else 0) = 0 ∨
      (if idl.any checkU then (100 : Nat) else 0) = 100) := by
  have hni : ¬(idl.isEmpty = true) := fun hh => hne (List.isEmpty_iff.mp hh)
  refine ⟨?_, ?_, ?_, ?_⟩
  · unfold eval_persistency
    rw [if_neg hni]
    dsimp only
    rw [evalFold checkP
      (fun i => ⟨"Found persistent identifier for the " ++ dm ++ ": " ++ i,
        pyRound100Div idl.length⟩)
      (fun i => ⟨"Identifier is not persistent for the " ++ dm ++ ": " ++ i,
        0⟩) idl (0, [])]
    simp
  · by_cases hany : idl.any checkP = true
    · right
      rw [if_pos hany]
    · left
      rw [if_neg hany]
  · unfold eval_uniqueness
    rw [if_neg hni]
    dsimp only
    rw [evalFold checkU
      (fun i => ⟨"Found a globally unique identifier for the " ++ dm ++
        ": " ++ i, pyRound100Div idl.length⟩)
      (fun i => ⟨"Identifier found for the " ++ dm ++
        " is not globally unique: " ++ i, 0⟩) idl (0, [])]
    simp
  · by_cases hany : idl.any checkU = true
    · right
      rw [if_pos hany]
    · left
      rw [if_neg hany]

/-- Witness for `eval_persistency_uniqueness_all_or_nothing` at a concrete
input: identifiers `["d", "x"]` where only `d` passes; points are 100, and
the message list carries the per-identifier share `round(100/2) = 50` for
the passing identifier. -/
theorem eval_persistency_uniqueness_witness :
    eval_persistency (fun s => s == "d") ["d", "x"] "data" =
      .ok ((if (["d", "x"] : List String).any (fun s => s == "d") then 100
        else 0),
        (["d", "x"] : List String).map (fun i =>
          if (fun s => s == "d") i then
            ⟨"Found persistent identifier for the " ++ "data" ++ ": " ++ i,
              pyRound100Div (["d", "x"] : List String).length⟩
          else
            ⟨"Identifier is not persistent for the " ++ "data" ++ ": " ++ i,
              0⟩)) ∧
    ((if (["d", "x"] : List String).any (fun s => s == "d") then (100 : Nat)
      else 0) = 0 ∨
      (if (["d", "x"] : List String).any (fun s => s == "d") then (100 : Nat)
        else 0) = 100) ∧
    eval_uniqueness (fun s => s == "d") ["d", "x"] "data" =
      .ok ((if (["d", "x"] : List String).any (fun s => s == "d") then 100
        else 0),
        (["d", "x"] : List String).map (fun i =>
          if (fun s => s == "d") i then
            ⟨"Found a globally unique identifier for the " ++ "data" ++
              ": " ++ i, pyRound100Div (["d", "x"] : List String).length⟩
          else
            ⟨"Identifier found for the " ++ "data" ++
              " is not globally unique: " ++ i, 0⟩)) ∧
    ((if (["d", "x"] : List String).any (fun s => s == "d") then (100 : Nat)
      else 0) = 0 ∨
      (if (["d", "x"] : List String).any (fun s => s == "d") then (100 : Nat)
        else 0) = 100) :=
  eval_persistency_uniqueness_all_or_nothing (fun s => s == "d")
    (fun s => s == "d") ["d", "x"] "data" (by decide)
